import Mathlib

/-!
Verification development for the niviz visualization-composition engine.

Each Python routine relevant to the checked properties is shallowly embedded
as an executable Lean definition:

* `plot.py` : `plot_orthogonal_views`, `plot_montage` (panel dataflow and
  the montage row split);
* `interfaces/freesurfer.py` : the rank remap of
  `IFreesurferVolParcellationRPT._post_run_hook` (built on a model of
  `np.unique(..., return_inverse=True)`), the colour-table build, and
  `_parse_freesurfer_LUT`;
* `interfaces/mixins.py` : `_parcel2segs`;
* `interfaces/surface.py` : the map-shape pipeline of
  `ISurfMapRPT._generate_report`, the contour-drawing loop and overlay
  colour ramp of `ISurfVolRPT._generate_report`;
* `interfaces/volume.py` : `_make_3d_from_4d`.

Machine floats only ever hold small integers or exact fractions in the
checked properties, so intensities and coordinates are modelled as `ℚ`.
-/

namespace Niviz

/-! ## Model of `np.unique` (sorted distinct values and inverse indices)

`np.unique(a, return_inverse=True)` returns the sorted list of distinct
values of `a` together with, for each element, its index in that sorted
list.  `insertSorted` inserts a value into a strictly sorted list,
dropping duplicates; folding it over the data yields the sorted distinct
values, and the inverse index of an element is its `indexOf` there. -/

def insertSorted (x : Int) : List Int → List Int
  | [] => [x]
  | y :: ys =>
    if x < y then x :: y :: ys
    else if x = y then y :: ys
    else y :: insertSorted x ys

def uniqueSorted (xs : List Int) : List Int :=
  xs.foldr insertSorted []


/-! ## `common/plot.py`

`plot_orthogonal_views` and `plot_montage` are pure in the data they hand
to the external renderer, so they are embedded as functions producing one
`PanelSpec` per rendered figure.  The external collaborators
`nilearn.image.threshold_img` and `niworkflows.viz.utils.cuts_from_bbox`
are abstract parameters (`thresholdImg`, `cutsFromBbox`): the properties
below are about which volume each one is applied to and how the returned
cut list is partitioned, exactly the dataflow of the source. -/

/-- A single call to the plotting backend: the display mode, the cut
coordinates passed as `cut_coords`, and the volume the brightness limits
were computed from (`none` when `auto_brightness` is off). -/
structure PanelSpec (V : Type) where
  displayMode : String
  cutCoords : List ℚ
  brightnessSource : Option V
deriving Repr, DecidableEq

/-- Embedding of `plot_orthogonal_views` (plot.py lines 11-40).
`cutsFromBbox img n axis` stands for `cuts_from_bbox(img, cuts=n)[axis]`
and `thresholdImg v` for `nimg.threshold_img(v, 1e-3)`.  Note the source
passes `data`, not `bbox_nii`, to `cuts_from_bbox`. -/
def plot_orthogonal_views {V : Type}
    (thresholdImg : V → V) (cutsFromBbox : V → Nat → String → List ℚ)
    (data : V) (bbox_nii : Option V) (auto_brightness : Bool)
    (display_modes : List String) (n_cuts : Nat) : List (PanelSpec V) :=
  let bbox := bbox_nii.getD (thresholdImg data)
  let cuts := fun d => cutsFromBbox data n_cuts d
  let brightness : Option V := if auto_brightness then some bbox else none
  display_modes.map (fun d => ⟨d, cuts d, brightness⟩)

/-- The `start` and `end` bounds of each montage row
(plot.py lines 66-69): `start = i * n_cols`,
`end = min(i * n_cols + n_cols, n_cuts)` for `i in range(n_cuts // n_cols)`. -/
def montageRowBounds (n_cuts n_cols : Nat) : List (Nat × Nat) :=
  (List.range (n_cuts / n_cols)).map
    (fun i => (i * n_cols, min (i * n_cols + n_cols) n_cuts))

/-- Embedding of `plot_montage` (plot.py lines 43-83): one panel per row,
whose cut coordinates are the Python slice `cuts[orientation][start:end]`.
Note the source passes `bbox_nii` to `cuts_from_bbox` here. -/
def plot_montage {V : Type}
    (thresholdImg : V → V) (cutsFromBbox : V → Nat → String → List ℚ)
    (data : V) (bbox_nii : Option V) (orientation : String)
    (n_cuts n_cols : Nat) (auto_brightness : Bool) : List (PanelSpec V) :=
  let bbox := bbox_nii.getD (thresholdImg data)
  let cuts := cutsFromBbox bbox n_cuts orientation
  let brightness : Option V := if auto_brightness then some bbox else none
  (montageRowBounds n_cuts n_cols).map
    (fun se => ⟨orientation, (cuts.drop se.1).take (se.2 - se.1), brightness⟩)

/-! ## `interfaces/freesurfer.py`

The rank remap of `IFreesurferVolParcellationRPT._post_run_hook`
(lines 111-132): `np.unique(d, return_inverse=True)` gives the sorted
distinct codes `unique_v` and, per voxel, its index into `unique_v`; the
volume is rewritten to those indices and the colour table is
`[colormap[i] for i in unique_v]`. -/

/-- `u_id` of `np.unique(..., return_inverse=True)`: each voxel's code
replaced by its index in the sorted distinct codes. -/
def rankRemap (codes : List Int) : List Nat :=
  codes.map (fun c => (uniqueSorted codes).indexOf c)

/-- `self._colors = [colormap[i] for i in unique_v]` with a total lookup. -/
def colorTable {C : Type} (codes : List Int) (lut : Int → C) : List C :=
  (uniqueSorted codes).map lut

/-- `[colormap[i] for i in unique_v]` with the partiality of the Python
dict lookup made explicit: the comprehension stops at the first code
missing from `colormap`, raising `KeyError(code)`. -/
def getColorsExc {C : Type} (lut : Int → Option C) : List Int → Except Int (List C)
  | [] => .ok []
  | c :: cs =>
    match lut c with
    | none => .error c
    | some col => (getColorsExc lut cs).map (fun rest => col :: rest)

/-- The colour-table build of `_post_run_hook` over the distinct codes of
the data, with lookup failure propagated. -/
def buildColorTable {C : Type} (codes : List Int) (lut : Int → Option C) :
    Except Int (List C) :=
  getColorsExc lut (uniqueSorted codes)

/-! ### `_parse_freesurfer_LUT` (freesurfer.py lines 139-163)

A text line is modelled as its character list.  The source skips a line
when `"#" in line` (a `#` anywhere) or the stripped line is empty; other
lines are split on single spaces, empty fields dropped, and destructured
as `roi, _, r, g, b, _`, with `int(x) / 255` normalization. -/

/-- Python `str.strip()` whitespace test. -/
def isPySpace (c : Char) : Bool :=
  c = ' ' || c = '\t' || c = '\n' || c = '\r' || c = '\x0b' || c = '\x0c'

/-- Python `line.strip()`. -/
def stripWS (l : List Char) : List Char :=
  ((l.dropWhile isPySpace).reverse.dropWhile isPySpace).reverse

/-- Python `line.strip("\n")`. -/
def stripNL (l : List Char) : List Char :=
  ((l.dropWhile (· = '\n')).reverse.dropWhile (· = '\n')).reverse

/-- The skip test of the parser loop:
`if "#" in line or not line.strip().strip("\n"): continue`. -/
def lutLineSkipped (l : List Char) : Bool :=
  l.contains '#' || (stripNL (stripWS l)).isEmpty

/-- Python `str.split(" ")`, structural on the character list. -/
def splitOnSpaceAux (cur : List Char) : List Char → List (List Char)
  | [] => [cur.reverse]
  | c :: rest =>
    if c = ' ' then cur.reverse :: splitOnSpaceAux [] rest
    else splitOnSpaceAux (c :: cur) rest

/-- `[entry for entry in line.strip("\n").split(" ") if entry]`. -/
def lutFields (l : List Char) : List (List Char) :=
  (splitOnSpaceAux [] (stripNL l)).filter (fun f => !f.isEmpty)

def digitsToNatAux (acc : Nat) : List Char → Option Nat
  | [] => some acc
  | c :: cs =>
    if c.isDigit then digitsToNatAux (acc * 10 + (c.toNat - 48)) cs else none

/-- Python `int()` on a field (optional sign then decimal digits). -/
def parseIntTok : List Char → Option Int
  | [] => none
  | '-' :: rest =>
    match rest with
    | [] => none
    | _ => (digitsToNatAux 0 rest).map (fun n => -(n : Int))
  | l => (digitsToNatAux 0 l).map (fun n => (n : Int))

/-- One parsed line: `roi, _, r, g, b, _ = fields`;
`color_mapping[int(roi)] = [int(r)/255, int(g)/255, int(b)/255]`.
`none` models the `ValueError`/`KeyError` paths of a malformed line. -/
def parseLUTLine (l : List Char) : Option (Int × ℚ × ℚ × ℚ) :=
  match lutFields l with
  | [roi, _nm, r, g, b, _al] =>
    match parseIntTok roi, parseIntTok r, parseIntTok g, parseIntTok b with
    | some ri, some rv, some gv, some bv =>
      some (ri, (rv : ℚ) / 255, (gv : ℚ) / 255, (bv : ℚ) / 255)
    | _, _, _, _ => none
  | _ => none

/-- The parser loop of `_parse_freesurfer_LUT` over the file's lines,
returning the code-to-colour entries in file order. -/
def parse_freesurfer_LUT : List (List Char) → Option (List (Int × ℚ × ℚ × ℚ))
  | [] => some []
  | l :: rest =>
    if lutLineSkipped l then parse_freesurfer_LUT rest
    else
      match parseLUTLine l with
      | none => none
      | some e => (parse_freesurfer_LUT rest).map (fun es => e :: es)

/-! ## `interfaces/mixins.py` : `_parcel2segs` (lines 103-108)

`for i in np.unique(d_parcellation): yield new_img_like(parcellation,
d_parcellation == i)` — one boolean mask per distinct voxel value. -/

def parcel2segs (d : List Int) : List (List Bool) :=
  (uniqueSorted d).map (fun i => d.map (fun x => x == i))

/-! ## `interfaces/surface.py` -/

/-! ### Map-shape pipeline of `ISurfMapRPT._generate_report`
(lines 143-158 and 195-198)

A per-hemisphere scalar dataset is a 1-D (`vec`) or 2-D (`mat`) numpy
array; indexing a 1-D array yields a scalar, indexing a 2-D array yields
a row.  The pipeline is: promote 1-D to a length-1 batch
(`lm = lm[None, :]`), then in single-map mode collapse back
(`lm = lm[0, :]`), then hand `m[map_ind]` to `plot_surf`. -/

inductive NpArr where
  | vec (v : List ℚ)
  | mat (m : List (List ℚ))
deriving Repr, DecidableEq

inductive NpVal where
  | scalar (x : ℚ)
  | arr (v : List ℚ)
deriving Repr, DecidableEq

/-- numpy `a[i]`: a row of a 2-D array, a scalar of a 1-D array. -/
def npIndex : NpArr → Nat → Option NpVal
  | .vec v, i => (v.get? i).map NpVal.scalar
  | .mat m, i => (m.get? i).map NpVal.arr

/-- `if lm.ndim == 1: lm = lm[None, :]` (surface.py lines 148-150). -/
def promoteSingleMap : NpArr → NpArr
  | .vec v => .mat [v]
  | .mat m => .mat m

/-- `if not self._visualize_all_maps: lm = lm[0, :]`
(surface.py lines 152-154); `lm[0, :]` fails on an empty or 1-D array. -/
def selectMapMode (lm : NpArr) (visualize_all_maps : Bool) : Option NpArr :=
  if visualize_all_maps then some lm
  else
    match lm with
    | .mat (r :: _) => some (.vec r)
    | .mat [] => none
    | .vec _ => none

/-- The value bound to `surf_map` for the panel with map index `map_ind`:
the dataset after promotion and mode selection, indexed by
`m = m[map_ind]` (surface.py line 196). -/
def panelSurfMap (dataset : NpArr) (visualize_all_maps : Bool)
    (map_ind : Nat) : Option NpVal :=
  (selectMapMode (promoteSingleMap dataset) visualize_all_maps).bind
    (fun lm => npIndex lm map_ind)

/-! ### Contour-drawing loop of `ISurfVolRPT._generate_report`
(lines 296-306)

`section_multiplane` returns one entry per requested height, `None` for a
plane that misses the mesh.  The loop
`for z, s in zip(cuts['z'], sections): ... if s: draw on zh.axes[z]`
looks each panel up by its cut coordinate. -/

abbrev Polyline : Type := List (ℚ × ℚ)

/-- One already-rendered slice panel of the `plot_anat` display: its cut
coordinate (the key of `zh.axes`) and the polylines drawn onto it. -/
structure SlicePanel where
  coord : ℚ
  drawn : List Polyline
deriving Repr, DecidableEq

/-- `zh.axes[z]` followed by the `ax.plot` calls: append `polys` to the
first panel keyed `z`; `none` models the `KeyError` when no panel has
that coordinate. -/
def drawOnPanel (panels : List SlicePanel) (z : ℚ) (polys : List Polyline) :
    Option (List SlicePanel) :=
  match panels with
  | [] => none
  | p :: ps =>
    if p.coord = z then some ({ p with drawn := p.drawn ++ polys } :: ps)
    else (drawOnPanel ps z polys).map (fun ps2 => p :: ps2)

/-- The `for z, s in zip(cuts['z'], sections)` loop: a `none` section
(`if s:` false) draws nothing; a `some` section draws its polylines on
the panel keyed by that coordinate. -/
def drawSections (panels : List SlicePanel) :
    List (ℚ × Option (List Polyline)) → Option (List SlicePanel)
  | [] => some panels
  | (z, s) :: rest =>
    match s with
    | none => drawSections panels rest
    | some polys =>
      match drawOnPanel panels z polys with
      | none => none
      | some panels2 => drawSections panels2 rest

/-- The panels produced by
`plot_anat(vol_img, display_mode='z', cut_coords=cuts['z'])`: one empty
panel per cut coordinate, in order. -/
def freshPanels (cuts : List ℚ) : List SlicePanel :=
  cuts.map (fun c => ⟨c, []⟩)

/-! ### Overlay colour ramp of `ISurfVolRPT._generate_report`
(lines 313-322)

`color_array[:, -1] = np.linspace(1.0, 0.0, ncolors)` with
`ncolors = 256`, then `color_array[0, :] = 0`. -/

/-- `np.linspace(1.0, 0.0, 256)[i]`. -/
def overlayRampAlpha (i : Nat) : ℚ := 1 - i / 255

/-- The alpha channel of `color_array` after `color_array[0, :] = 0`. -/
def overlayAlphaFinal (i : Nat) : ℚ :=
  if i = 0 then 0 else overlayRampAlpha i

/-- Modelled from the spec: the rendering backend is external, and the
spec states the ramp is applied "across the intensity range", i.e. an
intensity `v` in `[vmin, vmax]` is mapped linearly onto the 256 ramp
entries (the matplotlib colormap contract). -/
def rampIndex (vmin vmax v : ℚ) : Nat :=
  min 255 (Int.toNat ⌊(v - vmin) / (vmax - vmin) * 256⌋)

/-! ### 4D-to-3D reduction call sites -/

/-- A loaded image: 3-dimensional, or 4-dimensional as the list of its
3-D volumes along the 4th axis. -/
inductive NImg where
  | d3 (data : List ℚ)
  | d4 (vols : List (List ℚ))
deriving Repr, DecidableEq

/-- `nii.slicer[:, :, :, ind]`: selects the `ind`-th volume of a 4-D
image; raises (`none`) on a 3-D image. -/
def slicer4th (img : NImg) (ind : Nat) : Option NImg :=
  match img with
  | .d3 _ => none
  | .d4 vols => (vols.get? ind).map NImg.d3

/-- `_make_3d_from_4d` (volume.py lines 325-338):
`if len(nii.shape) < 4: return nii` then `return nii.slicer[:, :, :, ind]`. -/
def make_3d_from_4d (nii : NImg) (ind : Nat) : Option NImg :=
  match nii with
  | .d3 _ => some nii
  | .d4 _ => slicer4th nii ind

/-- Background volume of `ISurfVolRPT._generate_report`
(surface.py lines 286-287): `if vol_img.ndim == 4:
vol_img = vol_img.slicer[:, :, :, 0]`. -/
def surfVolBg3d (img : NImg) : Option NImg :=
  match img with
  | .d4 _ => slicer4th img 0
  | .d3 _ => some img

/-- Foreground volume of `ISurfVolRPT._generate_report`
(surface.py line 309): `fg_img = nib.load(self._fg_nii).slicer[:, :, :, 0]`
— the 4th-axis slice is taken unconditionally. -/
def surfVolFg3d (img : NImg) : Option NImg :=
  slicer4th img 0

/-! ## Properties of the `np.unique` model -/

theorem mem_insertSorted (x a : Int) (l : List Int) :
    a ∈ insertSorted x l ↔ a = x ∨ a ∈ l := by
  induction l with
  | nil => simp [insertSorted]
  | cons y ys ih =>
    rw [insertSorted]
    by_cases hlt : x < y
    · simp [hlt]
    · rw [if_neg hlt]
      by_cases heq : x = y
      · rw [if_pos heq]
        subst heq
        constructor
        · exact fun h => Or.inr h
        · rintro (h | h)
          · exact h ▸ List.mem_cons_self x ys
          · exact h
      · rw [if_neg heq]
        simp only [List.mem_cons, ih]
        tauto

theorem sorted_insertSorted (x : Int) (l : List Int)
    (h : l.Sorted (· < ·)) : (insertSorted x l).Sorted (· < ·) := by
  induction l with
  | nil => simp [insertSorted]
  | cons y ys ih =>
    rw [List.sorted_cons] at h
    obtain ⟨hy, hys⟩ := h
    by_cases hlt : x < y
    · rw [insertSorted, if_pos hlt, List.sorted_cons]
      refine ⟨?_, ?_⟩
      · intro b hb
        rcases List.mem_cons.mp hb with hb | hb
        · exact hb ▸ hlt
        · exact lt_trans hlt (hy b hb)
      · rw [List.sorted_cons]; exact ⟨hy, hys⟩
    · by_cases heq : x = y
      · rw [insertSorted, if_neg hlt, if_pos heq, List.sorted_cons]
        exact ⟨hy, hys⟩
      · rw [insertSorted, if_neg hlt, if_neg heq, List.sorted_cons]
        refine ⟨?_, ih hys⟩
        intro b hb
        rcases (mem_insertSorted x b ys).mp hb with hb | hb
        · subst hb
          exact lt_of_le_of_ne (not_lt.mp hlt) (fun he => heq he.symm)
        · exact hy b hb

theorem mem_uniqueSorted (a : Int) (xs : List Int) :
    a ∈ uniqueSorted xs ↔ a ∈ xs := by
  induction xs with
  | nil => simp [uniqueSorted]
  | cons x l ih =>
    simp only [uniqueSorted, List.foldr_cons, List.mem_cons]
    rw [mem_insertSorted]
    simp only [uniqueSorted] at ih
    rw [ih]

theorem sorted_uniqueSorted (xs : List Int) :
    (uniqueSorted xs).Sorted (· < ·) := by
  induction xs with
  | nil => simp [uniqueSorted]
  | cons x l ih => exact sorted_insertSorted x _ ih

/-- In a strictly sorted list, the index of a member equals the number of
entries smaller than it. -/
theorem indexOf_sorted_eq_countP (l : List Int) (c : Int)
    (hs : l.Sorted (· < ·)) (hm : c ∈ l) :
    l.indexOf c = l.countP (fun x => decide (x < c)) := by
  induction l with
  | nil => simp at hm
  | cons a t ih =>
    rw [List.sorted_cons] at hs
    obtain ⟨ha, hts⟩ := hs
    rcases List.mem_cons.mp hm with hm | hm
    · subst hm
      rw [List.indexOf_cons_self]
      have h2 : t.countP (fun x => decide (x < c)) = 0 := by
        rw [List.countP_eq_zero]
        intro b hb
        simp only [decide_eq_true_eq]
        exact not_lt.mpr (ha b hb).le
      simp [List.countP_cons, h2]
    · have hac : a < c := ha c hm
      have hne : a ≠ c := ne_of_lt hac
      rw [List.indexOf_cons_ne _ hne, List.countP_cons, ih hts hm]
      simp [hac, Nat.succ_eq_add_one, Nat.add_comm]

/-! ## Claim theorems -/

/-- C1: the montage composer is claimed to partition `N` cut indices into
`⌈N/C⌉` contiguous rows covering `[0, N)`, the last row holding
`N mod C` cuts when `C` does not divide `N`.  Evaluating the source's row
computation at `N = 7`, `C = 5`: the loop `range(n_cuts // n_cols)` runs
`⌊7/5⌋ = 1` time, producing the single row `[0, 5)` — not `⌈7/5⌉ = 2`
rows — and cut indices 5 and 6 fall in no row, so the rendered montage
silently drops them (the dead `min(i * n_cols + n_cols, n_cuts)` clamp in
the source only ever binds under a ceiling loop, so the spec states the
intent and the floor-division loop is the slip). -/
theorem C1_montage_drops_remainder :
    montageRowBounds 7 5 = [(0, 5)]
    ∧ (montageRowBounds 7 5).length = 1
    ∧ (7 + 5 - 1) / 5 = 2
    ∧ ((montageRowBounds 7 5).all (fun se => !(decide (se.1 ≤ 5) && decide (5 < se.2)))) = true
    ∧ ((montageRowBounds 7 5).all (fun se => !(decide (se.1 ≤ 6) && decide (6 < se.2)))) = true
    ∧ plot_montage (fun v => v + 100) (fun _ n _ => (List.range n).map (fun k => (k : ℚ)))
        (0 : Nat) none "z" 7 5 false
        = [⟨"z", [0, 1, 2, 3, 4], none⟩] := by
  decide

/-- C4: the cut coordinates are claimed to be computed from the thresholded
(or companion) bounding-box volume in both composers.  With volumes
modelled as `Nat`, thresholding as `v + 100` and `cuts_from_bbox` as
`fun v _ _ => [v]` (so the returned cut names the volume it was computed
from), `plot_orthogonal_views` on `data = 7` with companion `bbox_nii = 3`
emits cut coordinate 7 — `cuts_from_bbox` received the raw render volume,
not the companion — while `plot_montage` on the same inputs emits 3, the
companion.  The companion parameter of `plot_orthogonal_views` is
otherwise dead when `auto_brightness` is off, so the spec states the
intent and the `data` argument at plot.py line 22 is the slip. -/
theorem C4_ortho_cuts_from_raw_volume :
    plot_orthogonal_views (fun v => v + 100) (fun v _ _ => [(v : ℚ)])
        (7 : Nat) (some 3) false ["z"] 1
      = [⟨"z", [7], none⟩]
    ∧ plot_montage (fun v => v + 100) (fun v _ _ => [(v : ℚ)])
        (7 : Nat) (some 3) "z" 1 1 false
      = [⟨"z", [3], none⟩]
    ∧ ((7 : ℚ) ≠ 3) := by
  decide

/-- C7: the per-vertex map handed to the renderer is claimed to be a
full-length per-vertex array in both single-map and all-maps modes, the
single-map dataset being promoted to a length-1 batch so that index 0
yields the whole array.  Evaluating the source's shape pipeline on a
single-map dataset over 3 vertices: in all-maps mode the renderer indeed
receives the whole array, but in single-map mode `lm = lm[0, :]` undoes
the promotion and `m = m[map_ind]` hands the renderer the scalar value of
vertex 0 instead of the length-3 array. -/
theorem C7_single_map_mode_hands_scalar :
    panelSurfMap (NpArr.vec [1, 2, 3]) false 0 = some (NpVal.scalar 1)
    ∧ panelSurfMap (NpArr.vec [1, 2, 3]) true 0 = some (NpVal.arr [1, 2, 3])
    ∧ some (NpVal.scalar 1) ≠ some (NpVal.arr [1, 2, 3]) := by
  decide

/-- C10: every volume entering a composition is claimed to be reduced to
3D with 4D inputs sliced and 3D inputs passed through unchanged, at every
call site including the surface-volume overlay's foreground.
`_make_3d_from_4d` and the overlay's background site do satisfy this, but
the foreground site slices the 4th axis unconditionally and so fails
(`none`, an `IndexError`) on a 3D foreground volume instead of passing it
through. -/
theorem C10_fg_site_rejects_3d :
    make_3d_from_4d (NImg.d3 [5, 6]) 0 = some (NImg.d3 [5, 6])
    ∧ make_3d_from_4d (NImg.d4 [[1], [2]]) 0 = some (NImg.d3 [1])
    ∧ make_3d_from_4d (NImg.d4 [[1], [2]]) 1 = some (NImg.d3 [2])
    ∧ surfVolBg3d (NImg.d3 [5, 6]) = some (NImg.d3 [5, 6])
    ∧ surfVolBg3d (NImg.d4 [[1], [2]]) = some (NImg.d3 [1])
    ∧ surfVolFg3d (NImg.d4 [[1], [2]]) = some (NImg.d3 [1])
    ∧ surfVolFg3d (NImg.d3 [5, 6]) = none := by
  decide

/-- C2: the recolorer computes the sorted distinct codes present in the
volume, replaces each voxel's code by its 0-based rank in that sorted set
(the rank being the number of distinct smaller codes present), and the
colour table at rank `r` is the external lookup applied to the `r`-th
smallest code. -/
theorem C2_rank_remap_and_colors {C : Type} (codes : List Int) (lut : Int → C)
    (i : Nat) (c : Int) (hget : codes.get? i = some c) :
    (uniqueSorted codes).Sorted (· < ·)
    ∧ (uniqueSorted codes).Nodup
    ∧ (∀ a, a ∈ uniqueSorted codes ↔ a ∈ codes)
    ∧ (rankRemap codes).get? i
        = some ((uniqueSorted codes).countP (fun x => decide (x < c)))
    ∧ (∀ r, (colorTable codes lut).get? r = ((uniqueSorted codes).get? r).map lut) := by
  refine ⟨sorted_uniqueSorted codes, (sorted_uniqueSorted codes).nodup,
    fun a => mem_uniqueSorted a codes, ?_, fun r => List.get?_map lut _ r⟩
  have hc : c ∈ uniqueSorted codes :=
    (mem_uniqueSorted c codes).mpr (List.get?_mem hget)
  rw [rankRemap, List.get?_map, hget, Option.map_some',
    indexOf_sorted_eq_countP _ _ (sorted_uniqueSorted codes) hc]

/-- Witness for C2 on the spec's end-to-end example codes `{7, 3, 9}`:
voxel 0 holds code 7, whose rank is the count of smaller distinct codes,
namely 1. -/
theorem C2_rank_remap_and_colors_witness :
    (rankRemap [7, 3, 9, 3]).get? 0
        = some ((uniqueSorted [7, 3, 9, 3]).countP (fun x => decide (x < 7)))
    ∧ (uniqueSorted [7, 3, 9, 3]).countP (fun x => decide (x < 7)) = 1 :=
  ⟨(C2_rank_remap_and_colors [7, 3, 9, 3] (fun z => z) 0 7 rfl).2.2.2.1, by decide⟩

/-- Error propagation of the colour-table comprehension: a missing code in
the sorted distinct list surfaces as `Except.error` naming a missing
code. -/
theorem getColorsExc_error {C : Type} (lut : Int → Option C) (u : List Int)
    (h : ∃ x ∈ u, lut x = none) :
    ∃ cm, cm ∈ u ∧ lut cm = none ∧ getColorsExc lut u = Except.error cm := by
  induction u with
  | nil => simp at h
  | cons a t ih =>
    cases hla : lut a with
    | none => exact ⟨a, List.mem_cons_self a t, hla, by simp [getColorsExc, hla]⟩
    | some col =>
      obtain ⟨x, hx, hxn⟩ := h
      have hxt : x ∈ t := by
        rcases List.mem_cons.mp hx with hx | hx
        · exact absurd hxn (hx ▸ hla ▸ (by simp))
        · exact hx
      obtain ⟨cm, hcm, hcmn, heq⟩ := ih ⟨x, hxt, hxn⟩
      exact ⟨cm, List.mem_cons_of_mem a hcm, hcmn,
        by simp [getColorsExc, hla, heq, Except.map]⟩

/-- C3: when the label volume contains a code absent from the external
colour lookup, the colour-table build fails with an error naming a code
that is present in the data and missing from the lookup — it never
produces a table with a substituted default. -/
theorem C3_missing_code_fails {C : Type} (codes : List Int) (lut : Int → Option C)
    (c : Int) (hc : c ∈ codes) (hmiss : lut c = none) :
    ∃ cm, cm ∈ codes ∧ lut cm = none
      ∧ buildColorTable codes lut = Except.error cm := by
  obtain ⟨cm, hcm, hcmn, heq⟩ :=
    getColorsExc_error lut (uniqueSorted codes)
      ⟨c, (mem_uniqueSorted c codes).mpr hc, hmiss⟩
  exact ⟨cm, (mem_uniqueSorted cm codes).mp hcm, hcmn, heq⟩

/-- Witness for C3 on the spec's end-to-end example 4: a volume containing
code 42 with an empty lookup fails with the error naming 42. -/
theorem C3_missing_code_fails_witness :
    buildColorTable [42] (fun _ => (none : Option Unit)) = Except.error 42 := by
  obtain ⟨cm, hcm, -, heq⟩ :=
    C3_missing_code_fails [42] (fun _ => (none : Option Unit)) 42 (by decide) rfl
  have h42 : cm = 42 := by simpa using hcm
  rw [heq, h42]

/-- Voxel `j` is selected by the mask for value `i` iff voxel `j` holds
value `i`. -/
theorem maskGetD_eq (d : List Int) (i : Int) (j : Nat) :
    ((d.map (fun x => x == i)).getD j false = true) ↔ d.get? j = some i := by
  show ((d.map (fun x => x == i)).get? j).getD false = true ↔ _
  rcases h : d.get? j with _ | x
  · rw [List.get?_map, h]
    simp
  · rw [List.get?_map, h]
    simp [beq_iff_eq]

/-- C5 counterexample: on the rank-remapped volume `[0, 1]` the
decomposition yields a mask for rank 0 as well, so the first mask selects
voxel 0 even though voxel 0 carries value 0 and is outside the support —
the union of all masks is strictly larger than the support. -/
theorem C5_counterexample :
    parcel2segs [0, 1] = [[true, false], [false, true]]
    ∧ ((parcel2segs [0, 1]).getD 0 []).getD 0 false = true
    ∧ ([0, 1] : List Int).getD 0 0 = 0 := by
  decide

/-- C5 (amended): the per-rank masks are pairwise disjoint and their union
covers every voxel of the volume (one mask per distinct value, the rank-0
mask included); the union of the masks of the nonzero ranks reconstructs
exactly the support of the rank-remapped volume. -/
theorem C5_masks_partition (d : List Int) :
    List.Pairwise
      (fun m1 m2 => ∀ j, ¬(m1.getD j false = true ∧ m2.getD j false = true))
      (parcel2segs d)
    ∧ (∀ j, j < d.length → ∃ m ∈ parcel2segs d, m.getD j false = true)
    ∧ (∀ j, j < d.length →
        ((∃ i ∈ uniqueSorted d, i ≠ 0
            ∧ (d.map (fun x => x == i)).getD j false = true)
          ↔ d.getD j 0 ≠ 0)) := by
  refine ⟨?_, ?_, ?_⟩
  · rw [parcel2segs, List.pairwise_map]
    refine List.Pairwise.imp ?_ (sorted_uniqueSorted d)
    intro a b hab j hcon
    obtain ⟨h1, h2⟩ := hcon
    rw [maskGetD_eq] at h1 h2
    rw [h1] at h2
    exact absurd (Option.some.inj h2) (ne_of_lt hab)
  · intro j hj
    have hget : d.get? j = some (d.get ⟨j, hj⟩) := List.get?_eq_get hj
    refine ⟨d.map (fun y => y == d.get ⟨j, hj⟩), ?_, (maskGetD_eq _ _ _).mpr hget⟩
    rw [parcel2segs]
    exact List.mem_map_of_mem _
      ((mem_uniqueSorted _ d).mpr (List.get?_mem hget))
  · intro j hj
    have hget : d.get? j = some (d.get ⟨j, hj⟩) := List.get?_eq_get hj
    have hgd : d.getD j 0 = d.get ⟨j, hj⟩ := by
      show (d.get? j).getD 0 = _
      rw [hget]
      rfl
    constructor
    · rintro ⟨i, hiu, hine, hmask⟩
      rw [maskGetD_eq] at hmask
      rw [hgd]
      rw [hget] at hmask
      exact (Option.some.inj hmask) ▸ hine
    · intro hne
      exact ⟨d.get ⟨j, hj⟩,
        (mem_uniqueSorted _ d).mpr (List.get?_mem hget),
        hgd ▸ hne, (maskGetD_eq _ _ _).mpr hget⟩

/-- Witness for the amended C5 at the volume `[0, 1]`: voxel 1 is in the
support because the mask of the nonzero rank 1 selects it. -/
theorem C5_masks_partition_witness : ([0, 1] : List Int).getD 1 0 ≠ 0 :=
  ((C5_masks_partition [0, 1]).2.2 1 (by decide)).mp
    ⟨1, by decide, by decide, by decide⟩

/-- Drawing a list of sections whose coordinates all differ from the head
panel's coordinate leaves the head panel untouched. -/
theorem drawSections_skip (p : SlicePanel)
    (pairs : List (ℚ × Option (List Polyline)))
    (h : ∀ zs ∈ pairs, zs.1 ≠ p.coord) :
    ∀ ps, drawSections (p :: ps) pairs
      = (drawSections ps pairs).map (fun l => p :: l) := by
  induction pairs with
  | nil => intro ps; rfl
  | cons zs rest ih =>
    intro ps
    obtain ⟨z, s⟩ := zs
    have hz : z ≠ p.coord := h (z, s) (List.mem_cons_self _ _)
    have hrest : ∀ zs ∈ rest, zs.1 ≠ p.coord :=
      fun zs hzs => h zs (List.mem_cons_of_mem _ hzs)
    cases s with
    | none => simpa [drawSections] using ih hrest ps
    | some polys =>
      have hpz : ¬ p.coord = z := fun hc => hz hc.symm
      simp only [drawSections, drawOnPanel, if_neg hpz]
      cases hdp : drawOnPanel ps z polys with
      | none => simp [hdp]
      | some ps2 => simp [hdp, ih hrest ps2]

/-- C6: for distinct slicing coordinates and one section result per
coordinate, the drawing loop of the surface-volume overlay succeeds (a
coordinate that missed the mesh is no failure), keeps one panel per
coordinate in sequence order, and draws exactly the polylines of the
`i`-th contour set on the panel of the `i`-th coordinate — a missed
coordinate leaves its panel drawn-free. -/
theorem C6_positional_contours (cuts : List ℚ)
    (sections : List (Option (List Polyline)))
    (hnd : cuts.Nodup) (hlen : sections.length = cuts.length) :
    drawSections (freshPanels cuts) (cuts.zip sections)
      = some ((cuts.zip sections).map
          (fun zs => ⟨zs.1, (zs.2).getD []⟩)) := by
  induction cuts generalizing sections with
  | nil =>
    cases sections with
    | nil => rfl
    | cons s ss => simp at hlen
  | cons c cs ih =>
    cases sections with
    | nil => simp at hlen
    | cons s ss =>
      have hlen2 : ss.length = cs.length := by simpa using hlen
      have hcmem : c ∉ cs := (List.nodup_cons.mp hnd).1
      have hnd2 : cs.Nodup := (List.nodup_cons.mp hnd).2
      have hrest : ∀ zs ∈ cs.zip ss, zs.1 ≠ c := by
        intro zs hzs hceq
        exact hcmem (hceq ▸ (List.of_mem_zip hzs).1)
      have hfresh : freshPanels (c :: cs) = ⟨c, []⟩ :: freshPanels cs := rfl
      cases s with
      | none =>
        show drawSections (freshPanels (c :: cs)) ((c, none) :: cs.zip ss) = _
        rw [hfresh]
        have hstep : drawSections ((⟨c, []⟩ : SlicePanel) :: freshPanels cs)
            ((c, none) :: cs.zip ss)
            = drawSections ((⟨c, []⟩ : SlicePanel) :: freshPanels cs)
              (cs.zip ss) := rfl
        rw [hstep, drawSections_skip _ _ hrest, ih ss hnd2 hlen2]
        rfl
      | some polys =>
        show drawSections (freshPanels (c :: cs)) ((c, some polys) :: cs.zip ss) = _
        rw [hfresh]
        have hdraw : drawOnPanel ((⟨c, []⟩ : SlicePanel) :: freshPanels cs) c polys
            = some (⟨c, polys⟩ :: freshPanels cs) := by
          simp [drawOnPanel]
        have hstep : drawSections ((⟨c, []⟩ : SlicePanel) :: freshPanels cs)
            ((c, some polys) :: cs.zip ss)
            = drawSections ((⟨c, polys⟩ : SlicePanel) :: freshPanels cs)
              (cs.zip ss) := by
          simp only [drawSections, hdraw]
        rw [hstep, drawSections_skip _ _ hrest, ih ss hnd2 hlen2]
        rfl

/-- Witness for C6 at two cuts where the second misses the mesh: the loop
succeeds, the first panel carries the contour polyline and the second
panel exists with nothing drawn. -/
theorem C6_positional_contours_witness :
    drawSections (freshPanels [0, 10])
        ([(0 : ℚ), 10].zip [some [[(1, 2)]], none])
      = some [⟨0, [[(1, 2)]]⟩, ⟨10, []⟩] := by
  have h := C6_positional_contours [0, 10] [some [[(1, 2)]], none]
    (by decide) rfl
  simpa using h

/-- C8 counterexample: with intensity range `[-1, 1]` the value zero maps
to ramp entry 128, whose alpha is the linear-fade value `127/255`, not 0 —
the source only forces ramp entry 0 (`color_array[0, :] = 0`) to
transparent, so zero is not transparent "regardless of where it falls in
the ramp". -/
theorem C8_counterexample :
    rampIndex (-1) 1 0 = 128
    ∧ overlayAlphaFinal (rampIndex (-1) 1 0) = 127 / 255
    ∧ (127 / 255 : ℚ) ≠ 0 := by
  have hfloor : ⌊((0 : ℚ) - (-1)) / (1 - (-1)) * 256⌋ = 128 := by norm_num
  have h1 : rampIndex (-1) 1 0 = 128 := by
    show min 255 (Int.toNat ⌊((0 : ℚ) - (-1)) / (1 - (-1)) * 256⌋) = 128
    rw [hfloor]
    rfl
  refine ⟨h1, ?_, by norm_num⟩
  rw [h1]
  norm_num [overlayAlphaFinal, overlayRampAlpha]

/-- C8 (amended): the overlay ramp's alpha channel fades linearly from
near-opaque to fully transparent over entries 1..255, and entry 0 — the
entry used for the minimum of the intensity range — is forced fully
transparent; hence the value zero renders fully transparent when it is
the minimum of the intensity range, not regardless of ramp position. -/
theorem C8_ramp_alpha (i : Nat) (h1 : 1 ≤ i) (h2 : i ≤ 255)
    (vmin vmax : ℚ) ( _hlt : vmin < vmax) :
    overlayAlphaFinal 0 = 0
    ∧ overlayAlphaFinal i = 1 - (i : ℚ) / 255
    ∧ overlayAlphaFinal 255 = 0
    ∧ rampIndex vmin vmax vmin = 0
    ∧ overlayAlphaFinal (rampIndex vmin vmax vmin) = 0 := by
  have hidx : rampIndex vmin vmax vmin = 0 := by
    simp [rampIndex]
  have hne : i ≠ 0 := by omega
  exact ⟨by decide, by simp [overlayAlphaFinal, overlayRampAlpha, hne],
    by norm_num [overlayAlphaFinal, overlayRampAlpha], hidx,
    by rw [hidx]; decide⟩

/-- Witness for the amended C8 at ramp entry 9 and intensity range
`[2, 5]`. -/
theorem C8_ramp_alpha_witness :
    overlayAlphaFinal 9 = 1 - (9 : ℚ) / 255 ∧ rampIndex 2 5 2 = 0 :=
  ⟨(C8_ramp_alpha 9 (by decide) (by decide) 2 5 (by norm_num)).2.1,
   (C8_ramp_alpha 9 (by decide) (by decide) 2 5 (by norm_num)).2.2.2.1⟩

/-- C9 counterexample: the line `42 Left#Region 10 20 30 0` is neither
blank nor starts with `#`, yet the parser skips it, because the source's
test is `"#" in line` — a `#` anywhere in the line. -/
theorem C9_counterexample :
    lutLineSkipped ("42 Left#Region 10 20 30 0".toList) = true
    ∧ ("42 Left#Region 10 20 30 0".toList).head? ≠ some '#'
    ∧ (stripNL (stripWS ("42 Left#Region 10 20 30 0".toList))).isEmpty
        = false := by
  decide

/-- C9 (amended): the parser skips exactly the blank lines and the lines
containing `#` anywhere (skipped lines contribute nothing to the table);
every other line supplies fields `(code, name, r, g, b, alpha)`, and the
resulting mapping sends the code to the normalized triple
`[r/255, g/255, b/255]`. -/
theorem C9_parser_normalizes (l : List Char) (roi nm r g b al : List Char)
    (ri rv gv bv : Int)
    (hf : lutFields l = [roi, nm, r, g, b, al])
    (hroi : parseIntTok roi = some ri) (hr : parseIntTok r = some rv)
    (hg : parseIntTok g = some gv) (hb : parseIntTok b = some bv) :
    lutLineSkipped l = (l.contains '#' || (stripNL (stripWS l)).isEmpty)
    ∧ (∀ rest, lutLineSkipped l = true →
        parse_freesurfer_LUT (l :: rest) = parse_freesurfer_LUT rest)
    ∧ parseLUTLine l
        = some (ri, (rv : ℚ) / 255, (gv : ℚ) / 255, (bv : ℚ) / 255) := by
  refine ⟨rfl, ?_, ?_⟩
  · intro rest hskip
    simp [parse_freesurfer_LUT, hskip]
  · simp [parseLUTLine, hf, hroi, hr, hg, hb]

/-- Witness for the amended C9 on a FreeSurfer colour-table line. -/
theorem C9_parser_normalizes_witness :
    parseLUTLine ("186 CC_Anterior 0 0 64 0".toList)
      = some (186, ((0 : Int) : ℚ) / 255, ((0 : Int) : ℚ) / 255,
          ((64 : Int) : ℚ) / 255) :=
  (C9_parser_normalizes ("186 CC_Anterior 0 0 64 0".toList)
    ("186".toList) ("CC_Anterior".toList) ("0".toList) ("0".toList)
    ("64".toList) ("0".toList) 186 0 0 64
    (by decide) (by decide) (by decide) (by decide) (by decide)).2.2

end Niviz
